import Mathlib

/-!
Verification of the particle-clustering simulation core
(`src/clustering_game.cc`): population store, transport stepper,
collision resolution, fission branching and population recycling.

Modelling conventions:
* `double` arithmetic on positions, directions and distances is embedded
  as exact rational arithmetic (`ℚ`).
* The C `rand()`-based uniform stream `randf()` is modelled as a stream
  `urand : ℕ → ℚ` consumed through a counter `uk`; the direction sampler
  `dir_distr.sample(&dir_seed)` (which owns its separate seed `dir_seed`)
  is the stream `drand : ℕ → Vec3` with counter `dk`; `random_color()` is
  the stream `crand : ℕ → Color` with counter `ck` (it shares `rand()`
  with `randf()` in the source, but no property below depends on that
  interleaving, and colors are only drawn during initialization).
* The exponential flight sampler `x ↦ -log(x) / sig_t` is transcendental,
  so the stepper takes it as an explicit function parameter
  `L : ℚ → ℚ`; the definition `neg_log_sample` below records the actual
  formula over `ℝ` and its sign is analysed against it.
* The per-tick loop `for (nn = 0; nn < neuts.size(); ++nn)` iterates
  against a growing vector; its termination in the source depends on the
  sampled flight distances being nonnegative, so the loop is embedded
  with explicit fuel together with a completion flag.
-/

/-- 3-vector over `ℚ`, embedding `openmc::Position` / `openmc::Direction`
(the simulation holds `z = 0` but the type is 3-D). -/
structure Vec3 where
  x : ℚ
  y : ℚ
  z : ℚ
deriving DecidableEq, Repr

namespace Vec3

/-- Componentwise addition (`operator+=` on `openmc::Position`). -/
def add (a b : Vec3) : Vec3 := ⟨a.x + b.x, a.y + b.y, a.z + b.z⟩

/-- Scalar multiplication (`u * dist`). -/
def smul (a : Vec3) (s : ℚ) : Vec3 := ⟨a.x * s, a.y * s, a.z * s⟩

end Vec3

/-- RGB color, the opaque per-lineage display tag (`struct Color`). -/
structure Color where
  r : ℕ
  g : ℕ
  b : ℕ
deriving DecidableEq, Repr

/-- Particle record (`struct Neutron`). -/
structure Neutron where
  r : Vec3
  u : Vec3
  distance_to_collision : ℚ
  alive : Bool
  c : Color
deriving DecidableEq, Repr

/-- Cross sections: `double sig_s = 0.27`. -/
def sig_s : ℚ := 27/100

/-- `double sig_c = 0.02`. -/
def sig_c : ℚ := 2/100

/-- `double nu = 2.5`, the mean fission yield. -/
def nu : ℚ := 5/2

/-- `double sig_f = sig_c / (nu - 1.0)`. -/
def sig_f : ℚ := sig_c / (nu - 1)

/-- `double sig_t = sig_s + sig_c + sig_f`. -/
def sig_t : ℚ := sig_s + sig_c + sig_f

/-- `double vel = 20000.0 * 100.0` (cm/s). -/
def vel : ℚ := 20000 * 100

/-- Simulation state: the particle vector plus the three random streams
with their consumption counters (the source keeps the corresponding
state in the global `rand()` seed, `dir_seed`, and the vector itself). -/
structure SimState where
  neuts : List Neutron
  urand : ℕ → ℚ
  uk : ℕ
  drand : ℕ → Vec3
  dk : ℕ
  crand : ℕ → Color
  ck : ℕ

namespace SimState

/-- Draw the next uniform variate (`randf()`), returning it with the
advanced state. -/
def nextU (st : SimState) : ℚ × SimState :=
  (st.urand st.uk, { st with uk := st.uk + 1 })

/-- Draw the next direction (`dir_distr.sample(&dir_seed)`). -/
def nextDir (st : SimState) : Vec3 × SimState :=
  (st.drand st.dk, { st with dk := st.dk + 1 })

/-- Number of live particles. -/
def aliveCount (st : SimState) : ℕ :=
  st.neuts.countP (fun p => p.alive)

end SimState

/-- Index of the first dead slot, if any: the inner scan
`for (nnn = 0; nnn < neuts.size(); ++nnn) if (not nprime.alive) ...`
(named after the spec's `find_dead_slot`). -/
def find_dead_slot (l : List Neutron) : Option ℕ :=
  l.findIdx? (fun p => !p.alive)

/-- Place one fission secondary: a copy of the parent `n` written into the
first dead slot with freshly sampled direction and flight distance
`L (randf())`, or, when no dead slot exists, appended at the end with
flight distance `L (1 - randf())` (lines 158–174 of the source; `L` stands
for the exponential sampler `x ↦ -log(x)/sig_t`). -/
def placeSecondary (L : ℚ → ℚ) (n : Neutron) (st : SimState) : SimState :=
  match find_dead_slot st.neuts with
  | some i =>
      let (dir, st) := st.nextDir
      let (xi, st) := st.nextU
      let prog : Neutron := { n with u := dir, distance_to_collision := L xi }
      { st with neuts := st.neuts.set i prog }
  | none =>
      let (dir, st) := st.nextDir
      let (xi, st) := st.nextU
      let prog : Neutron := { n with u := dir, distance_to_collision := L (1 - xi) }
      { st with neuts := st.neuts ++ [prog] }

/-- The `while (n_new > 0)` placement loop for `k` secondaries. -/
def placeSecondaries (L : ℚ → ℚ) (n : Neutron) : ℕ → SimState → SimState
  | 0, st => st
  | k + 1, st => placeSecondaries L n k (placeSecondary L n st)

/-- Number of fission secondaries beyond the parent:
`int n_new = (int)nu; if (randf() < nu - n_new) n_new++; n_new--;`
given the extra-yield draw `x`. -/
def fissionCount (x : ℚ) : ℕ :=
  let n0 : ℤ := Int.floor nu
  let n1 : ℤ := if x < nu - n0 then n0 + 1 else n0
  (n1 - 1).toNat

/-- The outcome selection of collision resolution (lines 145–177): draw
`xi`; capture (`xi < sig_c/sig_t`) kills the particle at `nn`; fission
(`xi < (sig_c+sig_f)/sig_t`) draws the yield and places the secondaries;
scatter changes no population. `n` is the particle at `nn`. -/
def resolve_outcome (L : ℚ → ℚ) (st : SimState) (nn : ℕ) (n : Neutron) :
    SimState :=
  let (xi, st) := st.nextU
  if xi < sig_c / sig_t then
    -- captured!
    { st with neuts := st.neuts.set nn ({ n with alive := false }) }
  else if xi < (sig_c + sig_f) / sig_t then
    -- fission: sample the number of new particles, place them
    let (x, st) := st.nextU
    placeSecondaries L n (fissionCount x) st
  else
    st

/-- Lines 178–181, run after any outcome (capture included): the particle
at `nn` gets a fresh flight distance `L (randf())` and direction. -/
def resample_self (L : ℚ → ℚ) (st : SimState) (nn : ℕ) : SimState :=
  let (xi2, st) := st.nextU
  let (dir, st) := st.nextDir
  match st.neuts[nn]? with
  | none => st
  | some m =>
      let m' : Neutron := { m with distance_to_collision := L xi2, u := dir }
      { st with neuts := st.neuts.set nn m' }

/-- Collision resolution for the particle at index `nn` (lines 144–181):
outcome selection followed by the unconditional self-resample. -/
def collide (L : ℚ → ℚ) (st : SimState) (nn : ℕ) : SimState :=
  match st.neuts[nn]? with
  | none => st
  | some n => resample_self L (resolve_outcome L st nn n) nn

/-- Free-flight motion of the particle at index `nn` (lines 183–186):
`dist = vel*dt; r += u*dist; distance_to_collision -= dist`. -/
def moveOne (dt : ℚ) (st : SimState) (nn : ℕ) : SimState :=
  match st.neuts[nn]? with
  | none => st
  | some n =>
      let dist := vel * dt
      let n' : Neutron :=
        { n with r := n.r.add (n.u.smul dist),
                 distance_to_collision := n.distance_to_collision - dist }
      { st with neuts := st.neuts.set nn n' }

/-- One iteration of the per-particle loop body (lines 142–186): skip dead
particles; resolve a collision when `distance_to_collision < 0` (strict);
then move. -/
def visit (L : ℚ → ℚ) (dt : ℚ) (st : SimState) (nn : ℕ) : SimState :=
  match st.neuts[nn]? with
  | none => st
  | some n =>
      if !n.alive then st
      else if n.distance_to_collision < 0 then moveOne dt (collide L st nn) nn
      else moveOne dt st nn

/-- The per-tick loop `for (nn = 0; nn < neuts.size(); ++nn)` starting at
cursor `nn`, with fuel; returns the final state, the final cursor, and
whether the loop ran to completion (the source loop's termination depends
on sampled flight distances being nonnegative, hence the fuel). -/
def runFrom (L : ℚ → ℚ) (dt : ℚ) : ℕ → SimState → ℕ → SimState × ℕ × Bool
  | 0, st, nn => (st, nn, decide (st.neuts.length ≤ nn))
  | fuel + 1, st, nn =>
      if nn < st.neuts.length then
        runFrom L dt fuel (visit L dt st nn) (nn + 1)
      else
        (st, nn, true)

/-- `move_neutrons(neuts, dt)`: one full tick. -/
def move_neutrons (L : ℚ → ℚ) (dt : ℚ) (st : SimState) (fuel : ℕ) :
    SimState × ℕ × Bool :=
  runFrom L dt fuel st 0

/-- The exponential flight sampler actually used by the source,
`-std::log(x) / sig_t`, over `ℝ`. -/
noncomputable def neg_log_sample (x : ℝ) : ℝ :=
  -Real.log x / (sig_t : ℝ)

/-- `n.alive = false`: the capture outcome applied to a particle. -/
def captured (n : Neutron) : Neutron := { n with alive := false }

/-- A particle with freshly resampled flight distance and direction
(the effect of lines 164–165, 172–173 and 179–180 on their target). -/
def resampled (n : Neutron) (d : ℚ) (dir : Vec3) : Neutron :=
  { n with distance_to_collision := d, u := dir }

/-- A particle after free-flight motion over path length `dist`
(lines 184–186). -/
def moved (n : Neutron) (dist : ℚ) : Neutron :=
  { n with r := n.r.add (n.u.smul dist),
           distance_to_collision := n.distance_to_collision - dist }

/-- `#define WIDTH 1920`. -/
def WIDTH : ℕ := 1920

/-- `#define HEIGHT 1080`. -/
def HEIGHT : ℕ := 1080

/-- `int nrows = std::sqrt(neuts.size()/2)`: integer division by 2, then
the truncated square root. -/
def nrows (n : ℕ) : ℕ := Nat.sqrt (n / 2)

/-- `int ncols = 2 * nrows`. -/
def ncols (n : ℕ) : ℕ := 2 * nrows n

/-- `double dr = HEIGHT / (nrows + 1)`: an `int / int` division truncated
before the conversion to `double`. -/
def dr (n : ℕ) : ℚ := ((HEIGHT / (nrows n + 1) : ℕ) : ℚ)

/-- `double dc = WIDTH / (ncols + 1)`. -/
def dc (n : ℕ) : ℚ := ((WIDTH / (ncols n + 1) : ℕ) : ℚ)

/-- A value-initialized `Neutron` (the elements appended by
`neuts.resize(oldsize * 2)`; the code then sets `alive = false` on them,
and none of their other fields is ever read before being overwritten). -/
def default_neutron : Neutron :=
  { r := ⟨0, 0, 0⟩, u := ⟨0, 0, 0⟩, distance_to_collision := 0,
    alive := false, c := ⟨0, 0, 0⟩ }

/-- The live grid particle at flat index `i` (row `i / ncols`,
column `i % ncols`): position `(dc/2 + col*dc, dr/2 + row*dr, 0)`,
sampled direction, fresh color, `distance_to_collision = 0`, alive. -/
def grid_neutron (n : ℕ) (drand : ℕ → Vec3) (crand : ℕ → Color)
    (i : ℕ) : Neutron :=
  { r := ⟨dc n / 2 + ((i % ncols n : ℕ) : ℚ) * dc n,
          dr n / 2 + ((i / ncols n : ℕ) : ℚ) * dr n, 0⟩
    u := drand i
    distance_to_collision := 0
    alive := true
    c := crand i }

/-- `initialize_neutrons` (lines 88–116) on a vector of requested size
`n`: shrink to the `nrows * ncols` grid, fill it row-major (consuming one
direction and one color per particle), then append an equal number of
dead placeholder slots. -/
def initialize_neutrons (n : ℕ) (urand : ℕ → ℚ) (drand : ℕ → Vec3)
    (crand : ℕ → Color) : SimState :=
  let live := (List.range (nrows n * ncols n)).map (grid_neutron n drand crand)
  { neuts := live ++ List.replicate (nrows n * ncols n) default_neutron
    urand := urand
    uk := 0
    drand := drand
    dk := nrows n * ncols n
    crand := crand
    ck := nrows n * ncols n }

/-! ## Concrete fixtures used to instantiate the theorems -/

/-- A live test particle with a collision due (`distance_to_collision < 0`). -/
def wNeutron : Neutron :=
  { r := ⟨3, 4, 0⟩, u := ⟨1, 0, 0⟩, distance_to_collision := -1,
    alive := true, c := ⟨7, 8, 9⟩ }

/-- A live test particle with `distance_to_collision` exactly `0`. -/
def wNeutronZero : Neutron :=
  { r := ⟨10, 20, 0⟩, u := ⟨0, 0, 1⟩, distance_to_collision := 0,
    alive := true, c := ⟨4, 5, 6⟩ }

/-- A single-particle state holding `wNeutronZero`. -/
def wStateZero : SimState :=
  { neuts := [wNeutronZero]
    urand := fun _ => 0
    uk := 0
    drand := fun _ => ⟨1, 0, 0⟩
    dk := 0
    crand := fun _ => ⟨3, 3, 3⟩
    ck := 0 }

/-- A dead test particle. -/
def wDead : Neutron :=
  { r := ⟨5, 6, 0⟩, u := ⟨0, 1, 0⟩, distance_to_collision := 2,
    alive := false, c := ⟨1, 1, 1⟩ }

/-- A single-particle state whose first uniform draw (`0`) falls in the
capture band. -/
def wStateCapture : SimState :=
  { neuts := [wNeutron]
    urand := fun _ => 0
    uk := 0
    drand := fun _ => ⟨0, 1, 0⟩
    dk := 0
    crand := fun _ => ⟨2, 2, 2⟩
    ck := 0 }

/-- A two-particle state (one live with a due collision, one dead spare)
whose first uniform draw (`7/91`) falls in the fission band and whose
second draw (`3/4`) exceeds `nu - 2 = 1/2`, so exactly one secondary is
emitted into the dead slot. -/
def wStateFission : SimState :=
  { neuts := [wNeutron, wDead]
    urand := fun k => [(7 : ℚ)/91, 3/4, 1/3, 1/2].getD k 0
    uk := 0
    drand := fun k => [(⟨0, 1, 0⟩ : Vec3), ⟨0, 0, 1⟩, ⟨1, 1, 0⟩].getD k ⟨0, 0, 0⟩
    dk := 0
    crand := fun _ => ⟨2, 2, 2⟩
    ck := 0 }

/-- The identity sampler, a nonnegative-on-[0,1] stand-in for
`x ↦ -log(x)/sig_t` in concrete runs. -/
def idQ : ℚ → ℚ := fun x => x

/-- One live particle with a due collision and NO dead spare: the fission
secondary must be appended at the end. Draws: `7/91` (fission band),
`3/4` (no extra secondary), `1/3` (append flight draw), `1/2` (parent
resample). -/
def wStateAppend : SimState :=
  { neuts := [wNeutron]
    urand := fun k => [(7 : ℚ)/91, 3/4, 1/3, 1/2].getD k 0
    uk := 0
    drand := fun k => [(⟨0, 1, 0⟩ : Vec3), ⟨0, 0, 1⟩].getD k ⟨1, 0, 0⟩
    dk := 0
    crand := fun _ => ⟨2, 2, 2⟩
    ck := 0 }

/-- The progeny appended during the `wStateAppend` tick: the parent's
copy with direction `drand 0` and flight distance `idQ (1 - 1/3) = 2/3`. -/
def wProg : Neutron := resampled wNeutron (2/3) ⟨0, 1, 0⟩

/-- The `wStateAppend` state after its first loop iteration: the parent
(resampled to flight `1/2`, direction `drand 1`, then moved over
`vel * 0`) plus the appended progeny `wProg`; four draws consumed. -/
def wS1 : SimState :=
  { wStateAppend with
      neuts := [moved (resampled wNeutron (1/2) ⟨0, 0, 1⟩) (vel * 0), wProg]
      uk := 4
      dk := 2 }

/-- The `wStateAppend` state after the full tick: the progeny was visited
and only moved (no draws consumed). -/
def wS2 : SimState :=
  { wStateAppend with
      neuts := [moved (resampled wNeutron (1/2) ⟨0, 0, 1⟩) (vel * 0),
        moved wProg (vel * 0)]
      uk := 4
      dk := 2 }

/-! ## Basic structural lemmas -/

/-- The capture probability band: `sig_c / sig_t = 6/91`. -/
theorem sig_c_div_sig_t : sig_c / sig_t = 6/91 := by
  norm_num [sig_c, sig_t, sig_s, sig_f, nu]

/-- The capture-plus-fission band boundary: `(sig_c + sig_f)/sig_t = 10/91`. -/
theorem sig_cf_div_sig_t : (sig_c + sig_f) / sig_t = 10/91 := by
  norm_num [sig_c, sig_t, sig_s, sig_f, nu]

/-- `(int)nu = 2` for `nu = 2.5`. -/
theorem floor_nu : Int.floor nu = 2 := by
  norm_num [nu, Int.floor_eq_iff]

theorem q6_91_lt_q10_91 : (6:ℚ)/91 < 10/91 := by norm_num

theorem placeSecondary_length (L : ℚ → ℚ) (n : Neutron) (st : SimState) :
    st.neuts.length ≤ (placeSecondary L n st).neuts.length := by
  unfold placeSecondary
  cases h : find_dead_slot st.neuts with
  | some i => simp [SimState.nextDir, SimState.nextU]
  | none => simp [SimState.nextDir, SimState.nextU]

theorem placeSecondaries_length (L : ℚ → ℚ) (n : Neutron) (k : ℕ)
    (st : SimState) :
    st.neuts.length ≤ (placeSecondaries L n k st).neuts.length := by
  induction k generalizing st with
  | zero => simp [placeSecondaries]
  | succ k ih =>
      exact le_trans (placeSecondary_length L n st) (ih _)

theorem resolve_outcome_length (L : ℚ → ℚ) (st : SimState) (nn : ℕ)
    (n : Neutron) :
    st.neuts.length ≤ (resolve_outcome L st nn n).neuts.length := by
  unfold resolve_outcome
  simp only [SimState.nextU]
  split
  · simp
  · split
    · exact le_trans (by simp) (placeSecondaries_length L n _ _)
    · simp

theorem resample_self_length (L : ℚ → ℚ) (st : SimState) (nn : ℕ) :
    (resample_self L st nn).neuts.length = st.neuts.length := by
  unfold resample_self
  simp only [SimState.nextU, SimState.nextDir]
  cases h : st.neuts[nn]? with
  | none => rfl
  | some m => simp

theorem collide_length (L : ℚ → ℚ) (st : SimState) (nn : ℕ) :
    st.neuts.length ≤ (collide L st nn).neuts.length := by
  unfold collide
  cases h : st.neuts[nn]? with
  | none => simp
  | some n =>
      rw [resample_self_length]
      exact resolve_outcome_length L st nn n

theorem moveOne_length (dt : ℚ) (st : SimState) (nn : ℕ) :
    (moveOne dt st nn).neuts.length = st.neuts.length := by
  unfold moveOne
  cases h : st.neuts[nn]? with
  | none => rfl
  | some n => simp

theorem visit_length (L : ℚ → ℚ) (dt : ℚ) (st : SimState) (nn : ℕ) :
    st.neuts.length ≤ (visit L dt st nn).neuts.length := by
  unfold visit
  split
  · exact le_refl _
  · split
    · exact le_refl _
    · split
      · rw [moveOne_length]
        exact collide_length L st nn
      · rw [moveOne_length]

theorem runFrom_length (L : ℚ → ℚ) (dt : ℚ) (fuel : ℕ) (st : SimState)
    (nn : ℕ) :
    st.neuts.length ≤ (runFrom L dt fuel st nn).1.neuts.length := by
  induction fuel generalizing st nn with
  | zero => simp [runFrom]
  | succ fuel ih =>
      unfold runFrom
      split
      · exact le_trans (visit_length L dt st nn) (ih _ _)
      · exact le_refl _

theorem countP_set_balance (p : Neutron → Bool) (l : List Neutron) (n : ℕ)
    (a b : Neutron) (h : l[n]? = some a) :
    (l.set n b).countP p + (if p a then 1 else 0) =
      l.countP p + (if p b then 1 else 0) := by
  induction l generalizing n with
  | nil => simp at h
  | cons x xs ih =>
      cases n with
      | zero =>
          simp only [List.getElem?_cons_zero, Option.some.injEq] at h
          subst h
          simp only [List.set_cons_zero, List.countP_cons]
          omega
      | succ n =>
          simp only [List.getElem?_cons_succ] at h
          simp only [List.set_cons_succ, List.countP_cons]
          have := ih n h
          omega

/-! ## Equation lemmas for the stepper branches -/

theorem collide_eq (L : ℚ → ℚ) (st : SimState) (nn : ℕ) (n : Neutron)
    (h : st.neuts[nn]? = some n) :
    collide L st nn = resample_self L (resolve_outcome L st nn n) nn := by
  unfold collide
  rw [h]

theorem resolve_outcome_capture (L : ℚ → ℚ) (st : SimState) (nn : ℕ)
    (n : Neutron) (hc : st.urand st.uk < sig_c / sig_t) :
    resolve_outcome L st nn n =
      { st with neuts := st.neuts.set nn (captured n),
                uk := st.uk + 1 } := by
  unfold resolve_outcome SimState.nextU captured
  simp only [if_pos hc]

theorem resolve_outcome_fission (L : ℚ → ℚ) (st : SimState) (nn : ℕ)
    (n : Neutron) (hc : ¬ st.urand st.uk < sig_c / sig_t)
    (hf : st.urand st.uk < (sig_c + sig_f) / sig_t) :
    resolve_outcome L st nn n =
      placeSecondaries L n (fissionCount (st.urand (st.uk + 1)))
        { st with uk := st.uk + 1 + 1 } := by
  unfold resolve_outcome SimState.nextU
  simp only [if_neg hc, if_pos hf]

theorem resolve_outcome_scatter (L : ℚ → ℚ) (st : SimState) (nn : ℕ)
    (n : Neutron) (hc : ¬ st.urand st.uk < sig_c / sig_t)
    (hf : ¬ st.urand st.uk < (sig_c + sig_f) / sig_t) :
    resolve_outcome L st nn n = { st with uk := st.uk + 1 } := by
  unfold resolve_outcome SimState.nextU
  simp only [if_neg hc, if_neg hf]

theorem resample_self_eq (L : ℚ → ℚ) (st : SimState) (nn : ℕ) (m : Neutron)
    (h : st.neuts[nn]? = some m) :
    resample_self L st nn =
      { st with
          neuts := st.neuts.set nn (resampled m (L (st.urand st.uk)) (st.drand st.dk)),
          uk := st.uk + 1, dk := st.dk + 1 } := by
  unfold resample_self SimState.nextU SimState.nextDir resampled
  dsimp only
  rw [h]

theorem moveOne_eq (dt : ℚ) (st : SimState) (nn : ℕ) (n : Neutron)
    (h : st.neuts[nn]? = some n) :
    moveOne dt st nn =
      { st with neuts := st.neuts.set nn (moved n (vel * dt)) } := by
  unfold moveOne moved
  rw [h]

theorem visit_eq_dead (L : ℚ → ℚ) (dt : ℚ) (st : SimState) (nn : ℕ)
    (n : Neutron) (h : st.neuts[nn]? = some n) (ha : n.alive = false) :
    visit L dt st nn = st := by
  unfold visit
  rw [h]
  simp [ha]

theorem visit_eq_move (L : ℚ → ℚ) (dt : ℚ) (st : SimState) (nn : ℕ)
    (n : Neutron) (h : st.neuts[nn]? = some n) (ha : n.alive = true)
    (hd : ¬ n.distance_to_collision < 0) :
    visit L dt st nn = moveOne dt st nn := by
  unfold visit
  rw [h]
  simp [ha, hd]

theorem visit_eq_collide (L : ℚ → ℚ) (dt : ℚ) (st : SimState) (nn : ℕ)
    (n : Neutron) (h : st.neuts[nn]? = some n) (ha : n.alive = true)
    (hd : n.distance_to_collision < 0) :
    visit L dt st nn = moveOne dt (collide L st nn) nn := by
  unfold visit
  rw [h]
  simp [ha, hd]

theorem getElem?_length_lt {l : List Neutron} {nn : ℕ} {n : Neutron}
    (h : l[nn]? = some n) : nn < l.length :=
  (List.getElem?_eq_some.mp h).1

/-- The full capture path through collision resolution: the particle is
killed, then (lines 178–181 run regardless) its flight distance and
direction are resampled in place. -/
theorem collide_capture_eq (L : ℚ → ℚ) (st : SimState) (nn : ℕ) (n : Neutron)
    (h : st.neuts[nn]? = some n) (hc : st.urand st.uk < sig_c / sig_t) :
    collide L st nn =
      { st with
          neuts := st.neuts.set nn
            (resampled (captured n) (L (st.urand (st.uk + 1))) (st.drand st.dk)),
          uk := st.uk + 1 + 1, dk := st.dk + 1 } := by
  have hlt : nn < st.neuts.length := getElem?_length_lt h
  rw [collide_eq L st nn n h, resolve_outcome_capture L st nn n hc,
    resample_self_eq L _ nn (captured n) (List.getElem?_set_self hlt)]
  simp [List.set_set]

/-- The full capture path through one loop iteration: kill, resample,
move. -/
theorem visit_capture_eq (L : ℚ → ℚ) (dt : ℚ) (st : SimState) (nn : ℕ)
    (n : Neutron) (h : st.neuts[nn]? = some n) (ha : n.alive = true)
    (hd : n.distance_to_collision < 0)
    (hc : st.urand st.uk < sig_c / sig_t) :
    visit L dt st nn =
      { st with
          neuts := st.neuts.set nn
            (moved (resampled (captured n) (L (st.urand (st.uk + 1))) (st.drand st.dk)) (vel * dt)),
          uk := st.uk + 1 + 1, dk := st.dk + 1 } := by
  have hlt : nn < st.neuts.length := getElem?_length_lt h
  rw [visit_eq_collide L dt st nn n h ha hd, collide_capture_eq L st nn n h hc,
    moveOne_eq dt _ nn _ (List.getElem?_set_self hlt)]
  simp [List.set_set]

/-- C7: over a tick, the collection length never shrinks (removal only
flips `alive` to `false`, no slot is ever erased), and in any state the
number of live particles is at most the collection length. -/
theorem C7_tick_length_monotone_and_alive_le_length (L : ℚ → ℚ) (dt : ℚ)
    (st : SimState) (fuel : ℕ) :
    st.neuts.length ≤ (move_neutrons L dt st fuel).1.neuts.length ∧
      ∀ st' : SimState, st'.aliveCount ≤ st'.neuts.length := by
  refine ⟨runFrom_length L dt fuel st 0, ?_⟩
  intro st'
  exact List.countP_le_length _

/-- C2: when a collision resolves as capture (`xi < sig_c/sig_t`), the
colliding particle is marked dead, no replacement is produced (the length
is unchanged and every other slot is untouched), and the live count drops
by exactly 1. -/
theorem C2_capture_decreases_live_by_one (L : ℚ → ℚ) (dt : ℚ)
    (st : SimState) (nn : ℕ) (n : Neutron)
    (h : st.neuts[nn]? = some n) (ha : n.alive = true)
    (hd : n.distance_to_collision < 0)
    (hc : st.urand st.uk < sig_c / sig_t) :
    (visit L dt st nn).neuts.length = st.neuts.length ∧
      (visit L dt st nn).neuts[nn]?.map Neutron.alive = some false ∧
      (∀ j, j ≠ nn → (visit L dt st nn).neuts[j]? = st.neuts[j]?) ∧
      (visit L dt st nn).aliveCount + 1 = st.aliveCount := by
  have hlt := getElem?_length_lt h
  rw [visit_capture_eq L dt st nn n h ha hd hc]
  refine ⟨by simp, ?_, ?_, ?_⟩
  · simp [List.getElem?_set_self hlt, moved, resampled, captured]
  · intro j hj
    simp only []
    exact List.getElem?_set_ne (Ne.symm hj)
  · unfold SimState.aliveCount
    have hb := countP_set_balance (fun p => p.alive) st.neuts nn n
      (moved (resampled (captured n) (L (st.urand (st.uk + 1))) (st.drand st.dk)) (vel * dt)) h
    simp only [ha, moved, resampled, captured, if_true] at hb
    simpa using hb

/-- C2 witness: in `wStateCapture` the only particle is captured: length
unchanged, particle 0 dead, live count 1 → 0. -/
theorem C2_capture_decreases_live_by_one_witness :
    (visit (fun x => x) 1 wStateCapture 0).neuts.length = wStateCapture.neuts.length ∧
      (visit (fun x => x) 1 wStateCapture 0).neuts[0]?.map Neutron.alive = some false ∧
      (∀ j, j ≠ 0 → (visit (fun x => x) 1 wStateCapture 0).neuts[j]? = wStateCapture.neuts[j]?) ∧
      (visit (fun x => x) 1 wStateCapture 0).aliveCount + 1 = wStateCapture.aliveCount :=
  C2_capture_decreases_live_by_one (fun x => x) 1 wStateCapture 0 wNeutron
    rfl rfl (by decide) (by simp [wStateCapture, sig_c_div_sig_t])

/-- C10: a particle captured during collision resolution is not skipped
for the rest of that tick: its direction and flight distance are still
resampled and its position still advances by `direction * vel * dt` in
the same visit; a dead particle is only skipped (its visit is the
identity) from the next pass onward. -/
theorem C10_captured_particle_still_moves_same_tick (L : ℚ → ℚ) (dt : ℚ)
    (st : SimState) (nn : ℕ) (n : Neutron)
    (h : st.neuts[nn]? = some n) (ha : n.alive = true)
    (hd : n.distance_to_collision < 0)
    (hc : st.urand st.uk < sig_c / sig_t) :
    ((visit L dt st nn).neuts[nn]? =
      some { r := n.r.add ((st.drand st.dk).smul (vel * dt)),
             u := st.drand st.dk,
             distance_to_collision := L (st.urand (st.uk + 1)) - vel * dt,
             alive := false,
             c := n.c }) ∧
      ∀ (st' : SimState) (j : ℕ) (m : Neutron), st'.neuts[j]? = some m →
        m.alive = false → visit L dt st' j = st' := by
  have hlt := getElem?_length_lt h
  constructor
  · rw [visit_capture_eq L dt st nn n h ha hd hc]
    simp [List.getElem?_set_self hlt, moved, resampled, captured]
  · intro st' j m hm hma
    exact visit_eq_dead L dt st' j m hm hma

/-- C10 witness: the captured particle of `wStateCapture` is resampled
and moved within its own visit, and visiting a dead particle changes
nothing. -/
theorem C10_captured_particle_still_moves_same_tick_witness :
    ((visit (fun x => x) 1 wStateCapture 0).neuts[0]? =
      some { r := wNeutron.r.add ((wStateCapture.drand wStateCapture.dk).smul (vel * 1)),
             u := wStateCapture.drand wStateCapture.dk,
             distance_to_collision := (fun x : ℚ => x) (wStateCapture.urand (wStateCapture.uk + 1)) - vel * 1,
             alive := false,
             c := wNeutron.c }) ∧
      ∀ (st' : SimState) (j : ℕ) (m : Neutron), st'.neuts[j]? = some m →
        m.alive = false → visit (fun x => x) 1 st' j = st' :=
  C10_captured_particle_still_moves_same_tick (fun x => x) 1 wStateCapture 0 wNeutron
    rfl rfl (by decide) (by simp [wStateCapture, sig_c_div_sig_t])

/-! ## Counter and stream bookkeeping -/

theorem placeSecondary_uk (L : ℚ → ℚ) (n : Neutron) (st : SimState) :
    (placeSecondary L n st).uk = st.uk + 1 := by
  unfold placeSecondary
  split <;> rfl

theorem placeSecondaries_uk (L : ℚ → ℚ) (n : Neutron) (k : ℕ) (st : SimState) :
    (placeSecondaries L n k st).uk = st.uk + k := by
  induction k generalizing st with
  | zero => rfl
  | succ k ih =>
      show (placeSecondaries L n k (placeSecondary L n st)).uk = st.uk + (k + 1)
      rw [ih, placeSecondary_uk]
      omega

theorem resolve_outcome_uk_ge (L : ℚ → ℚ) (st : SimState) (nn : ℕ)
    (n : Neutron) :
    st.uk + 1 ≤ (resolve_outcome L st nn n).uk := by
  unfold resolve_outcome SimState.nextU
  dsimp only
  split
  · exact le_refl _
  · split
    · rw [placeSecondaries_uk]
      dsimp only
      omega
    · exact le_refl _

theorem resample_self_uk (L : ℚ → ℚ) (st : SimState) (nn : ℕ) :
    (resample_self L st nn).uk = st.uk + 1 := by
  unfold resample_self SimState.nextU SimState.nextDir
  dsimp only
  split <;> rfl

theorem moveOne_uk (dt : ℚ) (st : SimState) (nn : ℕ) :
    (moveOne dt st nn).uk = st.uk := by
  unfold moveOne
  split <;> rfl

theorem moveOne_dk (dt : ℚ) (st : SimState) (nn : ℕ) :
    (moveOne dt st nn).dk = st.dk := by
  unfold moveOne
  split <;> rfl

theorem collide_uk_ge (L : ℚ → ℚ) (st : SimState) (nn : ℕ) (n : Neutron)
    (h : st.neuts[nn]? = some n) :
    st.uk + 2 ≤ (collide L st nn).uk := by
  rw [collide_eq L st nn n h, resample_self_uk]
  have := resolve_outcome_uk_ge L st nn n
  omega

theorem placeSecondary_streams (L : ℚ → ℚ) (n : Neutron) (st : SimState) :
    (placeSecondary L n st).urand = st.urand ∧
      (placeSecondary L n st).drand = st.drand := by
  unfold placeSecondary
  split <;> exact ⟨rfl, rfl⟩

theorem placeSecondaries_streams (L : ℚ → ℚ) (n : Neutron) (k : ℕ)
    (st : SimState) :
    (placeSecondaries L n k st).urand = st.urand ∧
      (placeSecondaries L n k st).drand = st.drand := by
  induction k generalizing st with
  | zero => exact ⟨rfl, rfl⟩
  | succ k ih =>
      have h1 := placeSecondary_streams L n st
      have h2 := ih (placeSecondary L n st)
      exact ⟨h1.1 ▸ h2.1, h1.2 ▸ h2.2⟩

theorem resolve_outcome_streams (L : ℚ → ℚ) (st : SimState) (nn : ℕ)
    (n : Neutron) :
    (resolve_outcome L st nn n).urand = st.urand ∧
      (resolve_outcome L st nn n).drand = st.drand := by
  unfold resolve_outcome SimState.nextU
  dsimp only
  split
  · exact ⟨rfl, rfl⟩
  · split
    · exact placeSecondaries_streams L n _ _
    · exact ⟨rfl, rfl⟩

/-- C3: for a live particle, collision resolution fires iff its
`distance_to_collision` is strictly negative (the `< 0` check on line
144); the draw counter moves exactly when resolution fires, and a
particle at exactly `0` only moves, consuming no draws. -/
theorem C3_resolution_iff_strictly_negative (L : ℚ → ℚ) (dt : ℚ)
    (st : SimState) (nn : ℕ) (n : Neutron)
    (h : st.neuts[nn]? = some n) (ha : n.alive = true) :
    ((visit L dt st nn).uk ≠ st.uk ↔ n.distance_to_collision < 0) ∧
      (n.distance_to_collision < 0 →
        visit L dt st nn = moveOne dt (collide L st nn) nn) ∧
      (0 ≤ n.distance_to_collision →
        visit L dt st nn = moveOne dt st nn ∧
          (visit L dt st nn).uk = st.uk ∧
          (visit L dt st nn).dk = st.dk ∧
          (visit L dt st nn).neuts = st.neuts.set nn (moved n (vel * dt))) := by
  by_cases hd : n.distance_to_collision < 0
  · have he := visit_eq_collide L dt st nn n h ha hd
    refine ⟨?_, fun _ => he, fun hge => absurd hd (not_lt.mpr hge)⟩
    constructor
    · intro _; exact hd
    · intro _
      rw [he, moveOne_uk]
      have := collide_uk_ge L st nn n h
      omega
  · have hge : 0 ≤ n.distance_to_collision := not_lt.mp hd
    have he := visit_eq_move L dt st nn n h ha hd
    refine ⟨?_, fun hlt => absurd hlt hd, fun _ => ⟨he, ?_, ?_, ?_⟩⟩
    · constructor
      · intro hne
        exact absurd (by rw [he, moveOne_uk]) hne
      · intro hlt; exact absurd hlt hd
    · rw [he, moveOne_uk]
    · rw [he, moveOne_dk]
    · rw [he, moveOne_eq dt st nn n h]

/-- C3 witness: the particle of `wStateZero` sits exactly at
`distance_to_collision = 0`: no resolution fires, it only moves. -/
theorem C3_resolution_iff_strictly_negative_witness :
    ((visit (fun x => x) 1 wStateZero 0).uk ≠ wStateZero.uk ↔
        wNeutronZero.distance_to_collision < 0) ∧
      (wNeutronZero.distance_to_collision < 0 →
        visit (fun x => x) 1 wStateZero 0 =
          moveOne 1 (collide (fun x => x) wStateZero 0) 0) ∧
      (0 ≤ wNeutronZero.distance_to_collision →
        visit (fun x => x) 1 wStateZero 0 = moveOne 1 wStateZero 0 ∧
          (visit (fun x => x) 1 wStateZero 0).uk = wStateZero.uk ∧
          (visit (fun x => x) 1 wStateZero 0).dk = wStateZero.dk ∧
          (visit (fun x => x) 1 wStateZero 0).neuts =
            wStateZero.neuts.set 0 (moved wNeutronZero (vel * 1))) :=
  C3_resolution_iff_strictly_negative (fun x => x) 1 wStateZero 0 wNeutronZero
    rfl rfl

theorem sig_t_pos : (0:ℚ) < sig_t := by
  norm_num [sig_t, sig_s, sig_c, sig_f, nu]

/-- C8: whenever collision resolution fires, whatever the outcome band,
the particle's own flight distance is resampled through the exponential
sampler at a fresh uniform draw and its direction is resampled from the
direction stream; the sampler value `-log(x)/sig_t` is nonnegative for
any uniform draw `x ∈ [0,1]`, so the freshly resampled distance is never
negative. -/
theorem C8_resample_in_every_branch (L : ℚ → ℚ) (st : SimState) (nn : ℕ)
    (n : Neutron) (h : st.neuts[nn]? = some n)
    (hL : ∀ x : ℚ, 0 ≤ x → x ≤ 1 → 0 ≤ L x)
    (hu : ∀ k, 0 ≤ st.urand k ∧ st.urand k ≤ 1) :
    (∃ k dj m, (collide L st nn).uk = k + 1 ∧
        (collide L st nn).neuts[nn]? = some m ∧
        m.distance_to_collision = L (st.urand k) ∧
        m.u = st.drand dj ∧
        0 ≤ m.distance_to_collision) ∧
      (∀ x : ℝ, 0 ≤ x → x ≤ 1 → 0 ≤ neg_log_sample x) := by
  constructor
  · have hlt := getElem?_length_lt h
    have hlen : nn < (resolve_outcome L st nn n).neuts.length :=
      lt_of_lt_of_le hlt (resolve_outcome_length L st nn n)
    cases hm : (resolve_outcome L st nn n).neuts[nn]? with
    | none =>
        rw [List.getElem?_eq_none_iff] at hm
        omega
    | some m0 =>
        have hstr := resolve_outcome_streams L st nn n
        refine ⟨(resolve_outcome L st nn n).uk, (resolve_outcome L st nn n).dk,
          resampled m0 (L ((resolve_outcome L st nn n).urand
            (resolve_outcome L st nn n).uk))
            ((resolve_outcome L st nn n).drand (resolve_outcome L st nn n).dk),
          ?_, ?_, ?_, ?_, ?_⟩
        · rw [collide_eq L st nn n h, resample_self_eq L _ nn m0 hm]
        · rw [collide_eq L st nn n h, resample_self_eq L _ nn m0 hm]
          exact List.getElem?_set_self hlen
        · rw [hstr.1]
          rfl
        · rw [hstr.2]
          rfl
        · rw [hstr.1]
          exact hL _ (hu _).1 (hu _).2
  · intro x hx h1
    unfold neg_log_sample
    apply div_nonneg
    · simpa using Real.log_nonpos hx h1
    · exact_mod_cast le_of_lt sig_t_pos

/-- C8 witness at `wStateCapture` with the all-zero uniform stream and
the constant-zero sampler. -/
theorem C8_resample_in_every_branch_witness :
    (∃ k dj m, (collide (fun _ => 0) wStateCapture 0).uk = k + 1 ∧
        (collide (fun _ => 0) wStateCapture 0).neuts[0]? = some m ∧
        m.distance_to_collision = (fun _ : ℚ => (0:ℚ)) (wStateCapture.urand k) ∧
        m.u = wStateCapture.drand dj ∧
        0 ≤ m.distance_to_collision) ∧
      (∀ x : ℝ, 0 ≤ x → x ≤ 1 → 0 ≤ neg_log_sample x) :=
  C8_resample_in_every_branch (fun _ => 0) wStateCapture 0 wNeutron rfl
    (fun _ _ _ => le_refl 0) (fun _ => ⟨le_refl 0, (by decide : (0:ℚ) ≤ 1)⟩)

/-! ## First-fit dead-slot recycling -/

theorem find_dead_slot_spec (l : List Neutron) (i : ℕ)
    (h : find_dead_slot l = some i) :
    i < l.length ∧ l[i]?.map Neutron.alive = some false ∧
      ∀ j : ℕ, j < i → l[j]?.map Neutron.alive = some true := by
  induction l generalizing i with
  | nil => simp [find_dead_slot] at h
  | cons x xs ih =>
      rw [find_dead_slot, List.findIdx?_cons] at h
      by_cases hx : x.alive
      · rw [if_neg (by simp [hx]), List.findIdx?_succ] at h
        cases hfx : List.findIdx? (fun p => !p.alive) xs with
        | none => rw [hfx] at h; simp at h
        | some i0 =>
            rw [hfx] at h
            simp only [Option.map_some', Option.some.injEq] at h
            subst h
            obtain ⟨h1, h2, h3⟩ := ih i0 hfx
            refine ⟨by simpa using h1, by simpa using h2, ?_⟩
            intro j hj
            cases j with
            | zero => simp [hx]
            | succ j => simpa using h3 j (by omega)
      · rw [if_pos (by simp [hx])] at h
        simp only [Option.some.injEq] at h
        subst h
        refine ⟨by simp, ?_, by omega⟩
        simp [Bool.eq_false_iff.mpr hx]

theorem find_dead_slot_none_iff (l : List Neutron) :
    find_dead_slot l = none ↔
      ∀ (j : ℕ) (m : Neutron), l[j]? = some m → m.alive = true := by
  rw [find_dead_slot, List.findIdx?_eq_none_iff]
  constructor
  · intro hall j m hm
    have hmem : m ∈ l := List.getElem?_mem hm
    simpa using hall m hmem
  · intro hall x hx
    obtain ⟨j, hj⟩ := List.getElem?_of_mem hx
    simpa using hall j x hj

theorem placeSecondary_some_eq (L : ℚ → ℚ) (n : Neutron) (st : SimState)
    (i : ℕ) (h : find_dead_slot st.neuts = some i) :
    placeSecondary L n st =
      { st with
          neuts := st.neuts.set i (resampled n (L (st.urand st.uk)) (st.drand st.dk)),
          uk := st.uk + 1, dk := st.dk + 1 } := by
  unfold placeSecondary SimState.nextU SimState.nextDir resampled
  rw [h]

theorem placeSecondary_none_eq (L : ℚ → ℚ) (n : Neutron) (st : SimState)
    (h : find_dead_slot st.neuts = none) :
    placeSecondary L n st =
      { st with
          neuts := st.neuts ++ [resampled n (L (1 - st.urand st.uk)) (st.drand st.dk)],
          uk := st.uk + 1, dk := st.dk + 1 } := by
  unfold placeSecondary SimState.nextU SimState.nextDir resampled
  rw [h]

/-- C6: each fission secondary goes into the lowest-index dead slot
(first-fit scan from index 0), overwritten with a copy of the parent
whose direction and flight distance are then resampled; exactly when no
dead slot exists anywhere, a brand-new particle (same copy-then-resample,
with the `-log(1-xi)` draw) is appended at the end. -/
theorem C6_fission_secondary_first_fit (L : ℚ → ℚ) (n : Neutron)
    (st : SimState) :
    (∀ i, find_dead_slot st.neuts = some i →
        i < st.neuts.length ∧
          st.neuts[i]?.map Neutron.alive = some false ∧
          (∀ j : ℕ, j < i → st.neuts[j]?.map Neutron.alive = some true) ∧
          placeSecondary L n st =
            { st with
                neuts := st.neuts.set i (resampled n (L (st.urand st.uk)) (st.drand st.dk)),
                uk := st.uk + 1, dk := st.dk + 1 }) ∧
      (find_dead_slot st.neuts = none ↔
        ∀ (j : ℕ) (m : Neutron), st.neuts[j]? = some m → m.alive = true) ∧
      (find_dead_slot st.neuts = none →
        placeSecondary L n st =
          { st with
              neuts := st.neuts ++ [resampled n (L (1 - st.urand st.uk)) (st.drand st.dk)],
              uk := st.uk + 1, dk := st.dk + 1 }) := by
  refine ⟨?_, find_dead_slot_none_iff st.neuts, placeSecondary_none_eq L n st⟩
  intro i hi
  obtain ⟨h1, h2, h3⟩ := find_dead_slot_spec st.neuts i hi
  exact ⟨h1, h2, h3, placeSecondary_some_eq L n st i hi⟩

/-- C6 witness: in `wStateFission` the dead spare sits at index 1; the
secondary is recycled into it. -/
theorem C6_fission_secondary_first_fit_witness :
    1 < wStateFission.neuts.length ∧
      wStateFission.neuts[1]?.map Neutron.alive = some false ∧
      (∀ j, j < 1 → wStateFission.neuts[j]?.map Neutron.alive = some true) ∧
      placeSecondary (fun x => x) wNeutron wStateFission =
        { wStateFission with
            neuts := wStateFission.neuts.set 1
              (resampled wNeutron ((fun x : ℚ => x) (wStateFission.urand wStateFission.uk))
                (wStateFission.drand wStateFission.dk)),
            uk := wStateFission.uk + 1, dk := wStateFission.dk + 1 } :=
  (C6_fission_secondary_first_fit (fun x => x) wNeutron wStateFission).1 1 rfl

/-! ## Fission yield and placement bookkeeping -/

/-- For `nu = 2.5`, the sampled secondary count (after the `n_new--` for
the surviving parent) is `2` when the extra-yield draw falls below
`nu - floor(nu) = 1/2`, else `1`. -/
theorem resampled_alive (n : Neutron) (d : ℚ) (dir : Vec3) :
    (resampled n d dir).alive = n.alive := rfl

theorem moved_alive (n : Neutron) (dist : ℚ) :
    (moved n dist).alive = n.alive := rfl

theorem fissionCount_eq (x : ℚ) :
    fissionCount x = if x < nu - 2 then 2 else 1 := by
  unfold fissionCount
  rw [floor_nu]
  show ((if x < nu - ((2:ℤ):ℚ) then (2:ℤ) + 1 else 2) - 1).toNat
      = if x < nu - 2 then 2 else 1
  have hc : ((2:ℤ):ℚ) = 2 := by norm_num
  rw [hc]
  by_cases h : x < nu - 2
  · simp [h]
  · simp [h]

theorem fissionCount_one_or_two (x : ℚ) :
    fissionCount x = 1 ∨ fissionCount x = 2 := by
  rw [fissionCount_eq]
  split
  · right; rfl
  · left; rfl

theorem placeSecondary_dk (L : ℚ → ℚ) (n : Neutron) (st : SimState) :
    (placeSecondary L n st).dk = st.dk + 1 := by
  unfold placeSecondary
  split <;> rfl

theorem placeSecondaries_dk (L : ℚ → ℚ) (n : Neutron) (k : ℕ) (st : SimState) :
    (placeSecondaries L n k st).dk = st.dk + k := by
  induction k generalizing st with
  | zero => rfl
  | succ k ih =>
      show (placeSecondaries L n k (placeSecondary L n st)).dk = st.dk + (k + 1)
      rw [ih, placeSecondary_dk]
      omega

theorem placeSecondary_preserves_live (L : ℚ → ℚ) (n : Neutron)
    (st : SimState) (j : ℕ) (m : Neutron)
    (hj : st.neuts[j]? = some m) (hm : m.alive = true) :
    (placeSecondary L n st).neuts[j]? = some m := by
  cases hfd : find_dead_slot st.neuts with
  | some i =>
      rw [placeSecondary_some_eq L n st i hfd]
      have hspec := find_dead_slot_spec st.neuts i hfd
      have hne : i ≠ j := by
        intro he
        subst he
        rw [hj] at hspec
        simp [hm] at hspec
      simpa [List.getElem?_set_ne hne] using hj
  | none =>
      rw [placeSecondary_none_eq L n st hfd]
      have hjl : j < st.neuts.length := getElem?_length_lt hj
      simpa [List.getElem?_append_left hjl] using hj

theorem placeSecondaries_preserves_live (L : ℚ → ℚ) (n : Neutron) (k : ℕ)
    (st : SimState) (j : ℕ) (m : Neutron)
    (hj : st.neuts[j]? = some m) (hm : m.alive = true) :
    (placeSecondaries L n k st).neuts[j]? = some m := by
  induction k generalizing st with
  | zero => exact hj
  | succ k ih =>
      exact ih (placeSecondary L n st)
        (placeSecondary_preserves_live L n st j m hj hm)

theorem placeSecondary_aliveCount (L : ℚ → ℚ) (n : Neutron) (st : SimState)
    (hn : n.alive = true) :
    (placeSecondary L n st).aliveCount = st.aliveCount + 1 := by
  cases hfd : find_dead_slot st.neuts with
  | some i =>
      rw [placeSecondary_some_eq L n st i hfd]
      obtain ⟨hlen, hdead, -⟩ := find_dead_slot_spec st.neuts i hfd
      unfold SimState.aliveCount
      dsimp only
      cases hm : st.neuts[i]? with
      | none => rw [hm] at hdead; simp at hdead
      | some m0 =>
          rw [hm] at hdead
          simp only [Option.map_some', Option.some.injEq] at hdead
          have hb := countP_set_balance (fun p => p.alive) st.neuts i m0
            (resampled n (L (st.urand st.uk)) (st.drand st.dk)) hm
          simp only [hdead, resampled_alive, hn] at hb
          simp only [Bool.false_eq_true, if_false, if_true] at hb
          omega
  | none =>
      rw [placeSecondary_none_eq L n st hfd]
      unfold SimState.aliveCount
      simp [List.countP_append, List.countP_cons, resampled, hn]

theorem placeSecondaries_aliveCount (L : ℚ → ℚ) (n : Neutron) (k : ℕ)
    (st : SimState) (hn : n.alive = true) :
    (placeSecondaries L n k st).aliveCount = st.aliveCount + k := by
  induction k generalizing st with
  | zero => rfl
  | succ k ih =>
      show (placeSecondaries L n k (placeSecondary L n st)).aliveCount
        = st.aliveCount + (k + 1)
      rw [ih, placeSecondary_aliveCount L n st hn]
      omega

/-- Any slot whose occupant changes in one placement holds one of the two
progeny forms: a copy of the parent with resampled direction and flight
distance (`-log(xi)` for a recycled slot, `-log(1-xi)` for an append). -/
theorem placeSecondary_changed (L : ℚ → ℚ) (n : Neutron) (st : SimState)
    (j : ℕ) (p : Neutron)
    (hp : (placeSecondary L n st).neuts[j]? = some p)
    (hne : st.neuts[j]? ≠ some p) :
    p = resampled n (L (st.urand st.uk)) (st.drand st.dk) ∨
      p = resampled n (L (1 - st.urand st.uk)) (st.drand st.dk) := by
  cases hfd : find_dead_slot st.neuts with
  | some i =>
      rw [placeSecondary_some_eq L n st i hfd] at hp
      dsimp only at hp
      by_cases hij : i = j
      · subst hij
        left
        have hlen := (find_dead_slot_spec st.neuts i hfd).1
        rw [List.getElem?_set_self hlen] at hp
        exact (Option.some.inj hp).symm
      · rw [List.getElem?_set_ne hij] at hp
        exact absurd hp hne
  | none =>
      rw [placeSecondary_none_eq L n st hfd] at hp
      dsimp only at hp
      by_cases hj : j < st.neuts.length
      · rw [List.getElem?_append_left hj] at hp
        exact absurd hp hne
      · right
        rw [List.getElem?_append_right (le_of_not_lt hj)] at hp
        cases hdiff : j - st.neuts.length with
        | zero =>
            rw [hdiff] at hp
            simp only [List.getElem?_cons_zero] at hp
            exact (Option.some.inj hp).symm
        | succ m =>
            rw [hdiff] at hp
            simp at hp

/-- Across the whole placement loop, every changed slot holds a copy of
the parent's position and tag with direction and flight distance taken
fresh from the streams. -/
theorem placeSecondaries_changed (L : ℚ → ℚ) (n : Neutron) (k : ℕ)
    (st : SimState) (j : ℕ) (p : Neutron)
    (hp : (placeSecondaries L n k st).neuts[j]? = some p)
    (hne : st.neuts[j]? ≠ some p) :
    p.r = n.r ∧ p.c = n.c ∧ p.alive = n.alive ∧
      ∃ a b : ℕ, p.u = st.drand a ∧
        (p.distance_to_collision = L (st.urand b) ∨
          p.distance_to_collision = L (1 - st.urand b)) := by
  induction k generalizing st with
  | zero => exact absurd hp hne
  | succ k ih =>
      have hstep : placeSecondaries L n (k + 1) st
          = placeSecondaries L n k (placeSecondary L n st) := rfl
      rw [hstep] at hp
      by_cases hmid : (placeSecondary L n st).neuts[j]? = some p
      · cases placeSecondary_changed L n st j p hmid hne with
        | inl he =>
            subst he
            exact ⟨rfl, rfl, rfl, st.dk, st.uk, rfl, Or.inl rfl⟩
        | inr he =>
            subst he
            exact ⟨rfl, rfl, rfl, st.dk, st.uk, rfl, Or.inr rfl⟩
      · have h2 := ih (placeSecondary L n st) hp hmid
        obtain ⟨hs1, hs2⟩ := placeSecondary_streams L n st
        rw [hs1, hs2] at h2
        exact h2

theorem aliveCount_set_same (st : SimState) (nn : ℕ) (a b : Neutron)
    (h : st.neuts[nn]? = some a) (hab : b.alive = a.alive) :
    (st.neuts.set nn b).countP (fun p => p.alive)
      = st.neuts.countP (fun p => p.alive) := by
  have hb := countP_set_balance (fun p => p.alive) st.neuts nn a b h
  simp only [hab] at hb
  omega

/-- C1: when a collision resolves as fission, the secondary count beyond
the surviving parent is `floor(nu)` plus one extra exactly when the yield
draw falls below `nu - floor(nu)`, minus 1 — always 1 or 2 for
`nu = 2.5`; the live count grows by exactly that many; each secondary is
a copy of the parent's position and tag with direction and flight
distance taken fresh from the streams; and the parent itself stays alive
and is re-randomized (and moved) in place. -/
theorem C1_fission_yield_and_secondaries (L : ℚ → ℚ) (dt : ℚ)
    (st : SimState) (nn : ℕ) (n : Neutron)
    (h : st.neuts[nn]? = some n) (ha : n.alive = true)
    (hd : n.distance_to_collision < 0)
    (hc1 : ¬ st.urand st.uk < sig_c / sig_t)
    (hc2 : st.urand st.uk < (sig_c + sig_f) / sig_t) :
    (fissionCount (st.urand (st.uk + 1)) =
        if st.urand (st.uk + 1) < nu - 2 then 2 else 1) ∧
      (fissionCount (st.urand (st.uk + 1)) = 1 ∨
        fissionCount (st.urand (st.uk + 1)) = 2) ∧
      (visit L dt st nn).aliveCount =
        st.aliveCount + fissionCount (st.urand (st.uk + 1)) ∧
      (visit L dt st nn).neuts[nn]?.map Neutron.alive = some true ∧
      (∀ (j : ℕ) (p : Neutron), j ≠ nn →
        (visit L dt st nn).neuts[j]? = some p → st.neuts[j]? ≠ some p →
        p.r = n.r ∧ p.c = n.c ∧ p.alive = true ∧
          ∃ a b : ℕ, p.u = st.drand a ∧
            (p.distance_to_collision = L (st.urand b) ∨
              p.distance_to_collision = L (1 - st.urand b))) := by
  have hK := fissionCount_one_or_two (st.urand (st.uk + 1))
  have hst2 : ({ st with uk := st.uk + 1 + 1 } : SimState).neuts[nn]? = some n := h
  have hPnn : (placeSecondaries L n (fissionCount (st.urand (st.uk + 1)))
      { st with uk := st.uk + 1 + 1 }).neuts[nn]? = some n :=
    placeSecondaries_preserves_live L n _ _ nn n hst2 ha
  have hPlen : nn < (placeSecondaries L n (fissionCount (st.urand (st.uk + 1)))
      { st with uk := st.uk + 1 + 1 }).neuts.length := getElem?_length_lt hPnn
  have hvis : visit L dt st nn = moveOne dt (collide L st nn) nn :=
    visit_eq_collide L dt st nn n h ha hd
  have hcol : collide L st nn = resample_self L
      (placeSecondaries L n (fissionCount (st.urand (st.uk + 1)))
        { st with uk := st.uk + 1 + 1 }) nn := by
    rw [collide_eq L st nn n h, resolve_outcome_fission L st nn n hc1 hc2]
  set P := placeSecondaries L n (fissionCount (st.urand (st.uk + 1)))
    { st with uk := st.uk + 1 + 1 } with hPdef
  set q : Neutron := resampled n (L (P.urand P.uk)) (P.drand P.dk) with hq
  set q2 : Neutron := moved q (vel * dt) with hq2
  have hres : resample_self L P nn =
      { P with neuts := P.neuts.set nn q, uk := P.uk + 1, dk := P.dk + 1 } :=
    resample_self_eq L P nn n hPnn
  have hmid : ({ P with neuts := P.neuts.set nn q, uk := P.uk + 1, dk := P.dk + 1 } : SimState).neuts[nn]? = some q :=
    List.getElem?_set_self (by simpa using hPlen)
  have hmov : visit L dt st nn =
      { P with neuts := P.neuts.set nn q2, uk := P.uk + 1, dk := P.dk + 1 } := by
    rw [hvis, hcol, hres, moveOne_eq _ _ nn _ hmid]
    dsimp only
    rw [List.set_set]
  refine ⟨fissionCount_eq _, hK, ?_, ?_, ?_⟩
  · rw [hmov]
    show (P.neuts.set nn q2).countP (fun p => p.alive) = st.aliveCount + _
    rw [aliveCount_set_same P nn n q2 hPnn (by simp [hq2, hq, moved_alive, resampled_alive])]
    show P.aliveCount = _
    rw [hPdef, placeSecondaries_aliveCount L n _ _ ha]
    rfl
  · rw [hmov]
    show (P.neuts.set nn q2)[nn]?.map Neutron.alive = some true
    rw [List.getElem?_set_self hPlen]
    simp [hq2, hq, moved_alive, resampled_alive, ha]
  · intro j p hj hp hne
    rw [hmov] at hp
    have hpj : P.neuts[j]? = some p := by
      have hset : ({ P with neuts := P.neuts.set nn q2, uk := P.uk + 1, dk := P.dk + 1 } : SimState).neuts = P.neuts.set nn q2 := rfl
      rw [hset, List.getElem?_set_ne (Ne.symm hj)] at hp
      exact hp
    have hch := placeSecondaries_changed L n _ _ j p hpj hne
    obtain ⟨h1, h2, h3, a, b, h4, h5⟩ := hch
    exact ⟨h1, h2, h3.trans ha, a, b, h4, h5⟩

theorem q7_91_not_lt_q6_91 : ¬ ((7:ℚ)/91 < 6/91) := by norm_num

theorem q7_91_lt_q10_91 : (7:ℚ)/91 < 10/91 := by norm_num

/-- C1 witness: in `wStateFission` the draw `7/91` lands in the fission
band and the yield draw `3/4 ≥ 1/2` gives exactly one secondary. -/
theorem C1_fission_yield_and_secondaries_witness :
    (fissionCount (wStateFission.urand (wStateFission.uk + 1)) =
        if wStateFission.urand (wStateFission.uk + 1) < nu - 2 then 2 else 1) ∧
      (fissionCount (wStateFission.urand (wStateFission.uk + 1)) = 1 ∨
        fissionCount (wStateFission.urand (wStateFission.uk + 1)) = 2) ∧
      (visit (fun x => x) 1 wStateFission 0).aliveCount =
        wStateFission.aliveCount + fissionCount (wStateFission.urand (wStateFission.uk + 1)) ∧
      (visit (fun x => x) 1 wStateFission 0).neuts[0]?.map Neutron.alive = some true ∧
      (∀ (j : ℕ) (p : Neutron), j ≠ 0 →
        (visit (fun x => x) 1 wStateFission 0).neuts[j]? = some p →
        wStateFission.neuts[j]? ≠ some p →
        p.r = wNeutron.r ∧ p.c = wNeutron.c ∧ p.alive = true ∧
          ∃ a b : ℕ, p.u = wStateFission.drand a ∧
            (p.distance_to_collision = (fun x : ℚ => x) (wStateFission.urand b) ∨
              p.distance_to_collision = (fun x : ℚ => x) (1 - wStateFission.urand b))) :=
  C1_fission_yield_and_secondaries (fun x => x) 1 wStateFission 0 wNeutron
    rfl rfl (by decide)
    (by simp [wStateFission, sig_c_div_sig_t, q7_91_not_lt_q6_91])
    (by simp [wStateFission, sig_cf_div_sig_t, q7_91_lt_q10_91])

/-! ## Initialization layout -/

/-- `(int)std::sqrt(N/2)` (integer division, truncated square root)
agrees with `floor(sqrt(N/2))` computed over the reals. -/
theorem nrows_eq_floor_sqrt (N : ℕ) :
    ((nrows N : ℤ)) = ⌊Real.sqrt ((N : ℝ) / 2)⌋ := by
  unfold nrows
  set k := Nat.sqrt (N / 2) with hk
  have h1 : k ^ 2 ≤ N / 2 := Nat.sqrt_le' (N / 2)
  have h2 : N / 2 < (k + 1) ^ 2 := Nat.lt_succ_sqrt' (N / 2)
  have hcast : ((N / 2 : ℕ) : ℝ) ≤ (N : ℝ) / 2 := Nat.cast_div_le
  have hle : ((k : ℝ)) ≤ Real.sqrt ((N : ℝ) / 2) := by
    apply (Real.le_sqrt (by positivity) (by positivity)).mpr
    calc ((k : ℝ)) ^ 2 = ((k ^ 2 : ℕ) : ℝ) := by push_cast; ring
    _ ≤ ((N / 2 : ℕ) : ℝ) := by exact_mod_cast h1
    _ ≤ (N : ℝ) / 2 := hcast
  have hup : Real.sqrt ((N : ℝ) / 2) < (k : ℝ) + 1 := by
    apply (Real.sqrt_lt' (by positivity)).mpr
    have hN2 : N ≤ 2 * (N / 2) + 1 := by omega
    have hmid : ((N : ℝ) / 2) < ((N / 2 : ℕ) : ℝ) + 1 := by
      have : (N : ℝ) ≤ 2 * ((N / 2 : ℕ) : ℝ) + 1 := by exact_mod_cast hN2
      linarith
    have h2r : ((N / 2 : ℕ) : ℝ) + 1 ≤ (((k + 1) ^ 2 : ℕ) : ℝ) := by
      exact_mod_cast h2
    calc (N : ℝ) / 2 < ((N / 2 : ℕ) : ℝ) + 1 := hmid
    _ ≤ (((k + 1) ^ 2 : ℕ) : ℝ) := h2r
    _ = ((k : ℝ) + 1) ^ 2 := by push_cast; ring
  symm
  rw [Int.floor_eq_iff]
  refine ⟨by exact_mod_cast hle, ?_⟩
  push_cast
  exact hup

theorem initialize_neuts_eq (N : ℕ) (urand : ℕ → ℚ) (drand : ℕ → Vec3)
    (crand : ℕ → Color) :
    (initialize_neutrons N urand drand crand).neuts =
      (List.range (nrows N * ncols N)).map (grid_neutron N drand crand)
        ++ List.replicate (nrows N * ncols N) default_neutron := rfl

/-- C4: for `N ≥ 2`, initialization produces `rows = floor(sqrt(N/2))`
(real-valued floor), `cols = 2*rows`, `2*rows*cols` total slots; the
first `rows*cols` slots are the live grid particles with zero flight
distance and evenly spaced positions offset by half the spacing; the
appended `rows*cols` placeholder slots are dead. -/
theorem C4_initialize_layout (N : ℕ) (hN : 2 ≤ N) (urand : ℕ → ℚ)
    (drand : ℕ → Vec3) (crand : ℕ → Color) :
    ((nrows N : ℤ) = ⌊Real.sqrt ((N : ℝ) / 2)⌋) ∧
      ncols N = 2 * nrows N ∧
      1 ≤ nrows N ∧
      (initialize_neutrons N urand drand crand).neuts.length
        = 2 * (nrows N * ncols N) ∧
      (∀ i : ℕ, i < nrows N * ncols N →
        (initialize_neutrons N urand drand crand).neuts[i]?
            = some (grid_neutron N drand crand i) ∧
          (grid_neutron N drand crand i).alive = true ∧
          (grid_neutron N drand crand i).distance_to_collision = 0 ∧
          (grid_neutron N drand crand i).r.x
            = dc N / 2 + ((i % ncols N : ℕ) : ℚ) * dc N ∧
          (grid_neutron N drand crand i).r.y
            = dr N / 2 + ((i / ncols N : ℕ) : ℚ) * dr N) ∧
      (∀ i : ℕ, nrows N * ncols N ≤ i → i < 2 * (nrows N * ncols N) →
        (initialize_neutrons N urand drand crand).neuts[i]?.map Neutron.alive
          = some false) := by
  refine ⟨nrows_eq_floor_sqrt N, rfl, ?_, ?_, ?_, ?_⟩
  · have h1 : 1 ≤ N / 2 := by omega
    calc 1 = Nat.sqrt 1 := by simp
    _ ≤ Nat.sqrt (N / 2) := Nat.sqrt_le_sqrt h1
  · rw [initialize_neuts_eq]
    simp [List.length_append]
    omega
  · intro i hi
    refine ⟨?_, rfl, rfl, rfl, rfl⟩
    rw [initialize_neuts_eq]
    rw [List.getElem?_append_left (by simpa using hi)]
    simp [List.getElem?_map, List.getElem?_range, hi]
  · intro i h1 h2
    rw [initialize_neuts_eq]
    rw [List.getElem?_append_right (by simpa using h1)]
    simp only [List.length_map, List.length_range]
    rw [List.getElem?_replicate]
    rw [if_pos (by omega)]
    rfl

/-- C4 witness at `N = 8`: a 2×4 grid with 8 live and 8 dead slots. -/
theorem C4_initialize_layout_witness :
    ((nrows 8 : ℤ) = ⌊Real.sqrt ((8 : ℝ) / 2)⌋) ∧
      ncols 8 = 2 * nrows 8 ∧
      1 ≤ nrows 8 ∧
      (initialize_neutrons 8 (fun _ => 0) (fun _ => ⟨0, 0, 1⟩) (fun _ => ⟨1, 2, 3⟩)).neuts.length
        = 2 * (nrows 8 * ncols 8) ∧
      (∀ i : ℕ, i < nrows 8 * ncols 8 →
        (initialize_neutrons 8 (fun _ => 0) (fun _ => ⟨0, 0, 1⟩) (fun _ => ⟨1, 2, 3⟩)).neuts[i]?
            = some (grid_neutron 8 (fun _ => ⟨0, 0, 1⟩) (fun _ => ⟨1, 2, 3⟩) i) ∧
          (grid_neutron 8 (fun _ => ⟨0, 0, 1⟩) (fun _ => ⟨1, 2, 3⟩) i).alive = true ∧
          (grid_neutron 8 (fun _ => ⟨0, 0, 1⟩) (fun _ => ⟨1, 2, 3⟩) i).distance_to_collision = 0 ∧
          (grid_neutron 8 (fun _ => ⟨0, 0, 1⟩) (fun _ => ⟨1, 2, 3⟩) i).r.x
            = dc 8 / 2 + ((i % ncols 8 : ℕ) : ℚ) * dc 8 ∧
          (grid_neutron 8 (fun _ => ⟨0, 0, 1⟩) (fun _ => ⟨1, 2, 3⟩) i).r.y
            = dr 8 / 2 + ((i / ncols 8 : ℕ) : ℚ) * dr 8) ∧
      (∀ i : ℕ, nrows 8 * ncols 8 ≤ i → i < 2 * (nrows 8 * ncols 8) →
        (initialize_neutrons 8 (fun _ => 0) (fun _ => ⟨0, 0, 1⟩) (fun _ => ⟨1, 2, 3⟩)).neuts[i]?.map Neutron.alive
          = some false) :=
  C4_initialize_layout 8 (by decide) (fun _ => 0) (fun _ => ⟨0, 0, 1⟩) (fun _ => ⟨1, 2, 3⟩)

/-- C9 counterexample: for requested counts 0 and 1 the grid-rounding
leaves zero rows and an empty store — no floor of at least one
row/column is applied by `initialize_neutrons`. -/
theorem C9_counterexample_no_row_floor :
    nrows 0 = 0 ∧ nrows 1 = 0 ∧ ¬ 1 ≤ nrows 1 ∧
      (initialize_neutrons 1 (fun _ => 0) (fun _ => ⟨0, 0, 0⟩) (fun _ => ⟨0, 0, 0⟩)).neuts.length = 0 := by
  refine ⟨rfl, rfl, by decide, rfl⟩

/-- C9 (amended): for `N ≤ 1` the grid-rounding step produces a zero-row
grid and an empty particle list — `initialize_neutrons` applies no floor
of one row/column; division by zero in the spacing computation is
nonetheless impossible because the spacing divisors are `nrows + 1` and
`ncols + 1`, which are positive for every requested count. -/
theorem C9_degenerate_counts (N : ℕ) (hN : N ≤ 1) (urand : ℕ → ℚ)
    (drand : ℕ → Vec3) (crand : ℕ → Color) :
    nrows N = 0 ∧ ncols N = 0 ∧
      (initialize_neutrons N urand drand crand).neuts.length = 0 ∧
      (∀ M : ℕ, 0 < nrows M + 1 ∧ 0 < ncols M + 1 ∧
        dr M = ((HEIGHT / (nrows M + 1) : ℕ) : ℚ) ∧
        dc M = ((WIDTH / (ncols M + 1) : ℕ) : ℚ)) := by
  have hz : nrows N = 0 := by
    unfold nrows
    have h2 : N / 2 = 0 := by omega
    rw [h2]
    exact Nat.sqrt_zero
  have hc : ncols N = 0 := by simp [ncols, hz]
  refine ⟨hz, hc, ?_, fun M => ⟨Nat.succ_pos _, Nat.succ_pos _, rfl, rfl⟩⟩
  rw [initialize_neuts_eq]
  simp [hz]

/-- C9 witness: the degenerate count `N = 0`. -/
theorem C9_degenerate_counts_witness :
    nrows 0 = 0 ∧ ncols 0 = 0 ∧
      (initialize_neutrons 0 (fun _ => 0) (fun _ => ⟨0, 0, 0⟩) (fun _ => ⟨0, 0, 0⟩)).neuts.length = 0 ∧
      (∀ M : ℕ, 0 < nrows M + 1 ∧ 0 < ncols M + 1 ∧
        dr M = ((HEIGHT / (nrows M + 1) : ℕ) : ℚ) ∧
        dc M = ((WIDTH / (ncols M + 1) : ℕ) : ℚ)) :=
  C9_degenerate_counts 0 (by decide) (fun _ => 0) (fun _ => ⟨0, 0, 0⟩) (fun _ => ⟨0, 0, 0⟩)

/-! ## The in-tick growth loop (claim C5) -/

theorem runFrom_succ_eq (L : ℚ → ℚ) (dt : ℚ) (fuel : ℕ) (st : SimState)
    (nn : ℕ) :
    runFrom L dt (fuel + 1) st nn =
      if nn < st.neuts.length then runFrom L dt fuel (visit L dt st nn) (nn + 1)
      else (st, nn, true) := rfl

theorem runFrom_step (L : ℚ → ℚ) (dt : ℚ) (fuel : ℕ) (st : SimState)
    (nn : ℕ) (h : nn < st.neuts.length) :
    runFrom L dt (fuel + 1) st nn = runFrom L dt fuel (visit L dt st nn) (nn + 1) := by
  rw [runFrom_succ_eq, if_pos h]

theorem runFrom_stop (L : ℚ → ℚ) (dt : ℚ) (fuel : ℕ) (st : SimState)
    (nn : ℕ) (h : ¬ nn < st.neuts.length) :
    runFrom L dt (fuel + 1) st nn = (st, nn, true) := by
  rw [runFrom_succ_eq, if_neg h]

/-- A completed pass has marched the cursor through every index of the
final (grown) list: the exit cursor equals the final length. -/
theorem runFrom_complete_cursor (L : ℚ → ℚ) (dt : ℚ) (fuel : ℕ)
    (st : SimState) (nn : ℕ) (hn : nn ≤ st.neuts.length)
    (hdone : (runFrom L dt fuel st nn).2.2 = true) :
    (runFrom L dt fuel st nn).2.1 = (runFrom L dt fuel st nn).1.neuts.length := by
  induction fuel generalizing st nn with
  | zero =>
      simp only [runFrom, decide_eq_true_eq] at hdone ⊢
      omega
  | succ fuel ih =>
      by_cases h : nn < st.neuts.length
      · rw [runFrom_step L dt fuel st nn h] at hdone ⊢
        exact ih (visit L dt st nn) (nn + 1)
          (le_trans h (visit_length L dt st nn)) hdone
      · rw [runFrom_stop L dt fuel st nn h]
        dsimp only
        omega

theorem fissionCount_draw_3_4 : fissionCount ((3:ℚ)/4) = 1 := by
  rw [fissionCount_eq]
  norm_num [nu]

theorem wProg_distance : wProg.distance_to_collision = 2/3 := rfl

/-- C5 counterexample: in `wStateAppend` (one live particle, no spare
slot, fission draws) the tick appends one progeny past the cursor; the
completed pass visits it (exit cursor 2 = final length 2), yet no
collision resolution fires for it: the whole tick consumes exactly the
four draws of the parent's resolution, and the progeny's freshly sampled
flight distance `2/3` is not `< 0`, so under the strict-negative trigger
it cannot collide — let alone fission — in the tick of its birth. -/
theorem C5_counterexample_progeny_not_resolved :
    (move_neutrons idQ 0 wStateAppend 4).2.2 = true ∧
      (move_neutrons idQ 0 wStateAppend 4).1.neuts.length = 2 ∧
      (move_neutrons idQ 0 wStateAppend 4).2.1 = 2 ∧
      (move_neutrons idQ 0 wStateAppend 4).1.uk = 4 ∧
      (move_neutrons idQ 0 wStateAppend 4).1.neuts[1]?.map
        Neutron.distance_to_collision = some (2/3) ∧
      ¬ ((2:ℚ)/3 < 0) := by
  have hc1 : ¬ wStateAppend.urand wStateAppend.uk < sig_c / sig_t := by
    simp [wStateAppend, sig_c_div_sig_t, q7_91_not_lt_q6_91]
  have hc2 : wStateAppend.urand wStateAppend.uk < (sig_c + sig_f) / sig_t := by
    simp [wStateAppend, sig_cf_div_sig_t, q7_91_lt_q10_91]
  have hfc1 : fissionCount (wStateAppend.urand (wStateAppend.uk + 1)) = 1 :=
    fissionCount_draw_3_4
  have happ : placeSecondary idQ wNeutron
      ({ wStateAppend with uk := wStateAppend.uk + 1 + 1 }) =
      { wStateAppend with neuts := [wNeutron, wProg], uk := 3, dk := 1 } := by
    rw [placeSecondary_none_eq idQ wNeutron
      ({ wStateAppend with uk := wStateAppend.uk + 1 + 1 }) rfl]
    have hv : resampled wNeutron (idQ (1 - (1:ℚ)/3)) ⟨0, 1, 0⟩ = wProg := by
      unfold wProg resampled idQ
      norm_num
    show { wStateAppend with
        neuts := [wNeutron] ++ [resampled wNeutron (idQ (1 - (1:ℚ)/3)) ⟨0, 1, 0⟩],
        uk := 3, dk := 1 } = _
    rw [hv]
    rfl
  have hres : resample_self idQ
      ({ wStateAppend with neuts := [wNeutron, wProg], uk := 3, dk := 1 }) 0 =
      { wStateAppend with
          neuts := [resampled wNeutron (1/2) ⟨0, 0, 1⟩, wProg], uk := 4, dk := 2 } := by
    rw [resample_self_eq idQ
      ({ wStateAppend with neuts := [wNeutron, wProg], uk := 3, dk := 1 }) 0 wNeutron rfl]
    rfl
  have hmov0 : moveOne 0
      ({ wStateAppend with
          neuts := [resampled wNeutron (1/2) ⟨0, 0, 1⟩, wProg], uk := 4, dk := 2 }) 0 = wS1 := by
    rw [moveOne_eq 0
      ({ wStateAppend with
          neuts := [resampled wNeutron (1/2) ⟨0, 0, 1⟩, wProg], uk := 4, dk := 2 }) 0
      (resampled wNeutron (1/2) ⟨0, 0, 1⟩) rfl]
    rfl
  have hvisit0 : visit idQ 0 wStateAppend 0 = wS1 := by
    rw [visit_eq_collide idQ 0 wStateAppend 0 wNeutron rfl rfl (by decide),
      collide_eq idQ wStateAppend 0 wNeutron rfl,
      resolve_outcome_fission idQ wStateAppend 0 wNeutron hc1 hc2, hfc1]
    have hps : placeSecondaries idQ wNeutron 1
        ({ wStateAppend with uk := wStateAppend.uk + 1 + 1 }) =
        { wStateAppend with neuts := [wNeutron, wProg], uk := 3, dk := 1 } := happ
    rw [hps, hres, hmov0]
  have hvisit1 : visit idQ 0 wS1 1 = wS2 := by
    rw [visit_eq_move idQ 0 wS1 1 wProg rfl rfl (by rw [wProg_distance]; norm_num),
      moveOne_eq 0 wS1 1 wProg rfl]
    rfl
  have hrun : move_neutrons idQ 0 wStateAppend 4 = (wS2, 2, true) :=
    calc move_neutrons idQ 0 wStateAppend 4
        = runFrom idQ 0 (3 + 1) wStateAppend 0 := rfl
      _ = runFrom idQ 0 3 (visit idQ 0 wStateAppend 0) 1 :=
          runFrom_step idQ 0 3 wStateAppend 0 (by decide)
      _ = runFrom idQ 0 (2 + 1) wS1 1 := by rw [hvisit0]
      _ = runFrom idQ 0 2 (visit idQ 0 wS1 1) 2 :=
          runFrom_step idQ 0 2 wS1 1 (by decide)
      _ = runFrom idQ 0 (1 + 1) wS2 2 := by rw [hvisit1]
      _ = (wS2, 2, true) := runFrom_stop idQ 0 1 wS2 2 (by decide)
  rw [hrun]
  refine ⟨rfl, rfl, rfl, rfl, ?_, by norm_num⟩
  show some ((moved wProg (vel * 0)).distance_to_collision) = some (2/3)
  unfold moved
  rw [wProg_distance]
  norm_num [vel]

/-- C5 (amended): appends grow the list while the loop iterates by index,
so a completed pass visits every index of the final list — appended
progeny included; but every slot the fission placement loop writes
carries a freshly resampled nonnegative flight distance, and visiting a
live particle whose flight distance is nonnegative performs no collision
resolution at all (it only moves, consuming no draws), so progeny cannot
collide — let alone fission — within the tick of their creation. -/
theorem C5_progeny_visited_same_tick_but_not_resolved (L : ℚ → ℚ) (dt : ℚ)
    (st : SimState) (fuel : ℕ)
    (hL : ∀ x : ℚ, 0 ≤ x → x ≤ 1 → 0 ≤ L x)
    (hu : ∀ k, 0 ≤ st.urand k ∧ st.urand k ≤ 1) :
    ((runFrom L dt fuel st 0).2.2 = true →
        (runFrom L dt fuel st 0).2.1 = (runFrom L dt fuel st 0).1.neuts.length) ∧
      (∀ (n : Neutron) (k j : ℕ) (p : Neutron),
        (placeSecondaries L n k st).neuts[j]? = some p →
        st.neuts[j]? ≠ some p → 0 ≤ p.distance_to_collision) ∧
      (∀ (st' : SimState) (nn : ℕ) (n : Neutron),
        st'.neuts[nn]? = some n → n.alive = true →
        0 ≤ n.distance_to_collision →
        visit L dt st' nn = moveOne dt st' nn ∧
          (visit L dt st' nn).neuts.length = st'.neuts.length ∧
          (visit L dt st' nn).uk = st'.uk) := by
  refine ⟨fun hdone =>
    runFrom_complete_cursor L dt fuel st 0 (Nat.zero_le _) hdone, ?_, ?_⟩
  · intro n k j p hp hne
    obtain ⟨-, -, -, a, b, h4, h5⟩ := placeSecondaries_changed L n k st j p hp hne
    cases h5 with
    | inl he =>
        rw [he]
        exact hL _ (hu b).1 (hu b).2
    | inr he =>
        rw [he]
        have hb := hu b
        exact hL _ (by linarith [hb.2]) (by linarith [hb.1])
  · intro st' nn n h ha hd
    have he := visit_eq_move L dt st' nn n h ha (not_lt.mpr hd)
    exact ⟨he, by rw [he, moveOne_length], by rw [he, moveOne_uk]⟩

/-- C5 witness at `wStateZero` with the identity sampler. -/
theorem C5_progeny_visited_same_tick_but_not_resolved_witness :
    ((runFrom idQ 1 2 wStateZero 0).2.2 = true →
        (runFrom idQ 1 2 wStateZero 0).2.1 = (runFrom idQ 1 2 wStateZero 0).1.neuts.length) ∧
      (∀ (n : Neutron) (k j : ℕ) (p : Neutron),
        (placeSecondaries idQ n k wStateZero).neuts[j]? = some p →
        wStateZero.neuts[j]? ≠ some p → 0 ≤ p.distance_to_collision) ∧
      (∀ (st' : SimState) (nn : ℕ) (n : Neutron),
        st'.neuts[nn]? = some n → n.alive = true →
        0 ≤ n.distance_to_collision →
        visit idQ 1 st' nn = moveOne 1 st' nn ∧
          (visit idQ 1 st' nn).neuts.length = st'.neuts.length ∧
          (visit idQ 1 st' nn).uk = st'.uk) :=
  C5_progeny_visited_same_tick_but_not_resolved idQ 1 wStateZero 2
    (fun x hx _ => hx) (fun _ => ⟨le_refl 0, (by decide : (0:ℚ) ≤ 1)⟩)
